import Mathlib

/-!
Verification of the genzlingo repository: a shallow embedding of the
Streamlit chat application `src/streamlit_app.py`, together with a model of
the QuizEngine / TermStore component described in the design document
(that component has no implementation under `src/`, so it is modelled
faithfully from the specification text).
-/

namespace GenZLingo

/-- A single apostrophe character, used inside user-visible strings. -/
def apos : String := String.singleton (Char.ofNat 39)

/-- A chat message, as stored in `st.session_state.messages`:
a dictionary with a `role` ("system" / "user" / "assistant") and a `content`. -/
structure Message where
  role : String
  content : String
deriving DecidableEq, Repr

/-- The chat history list `st.session_state.messages`. -/
abbrev History := List Message

/-- `SYSTEM_PROMPT_CONTENT` from `streamlit_app.py` (lines 40-49). -/
def SYSTEM_PROMPT_CONTENT : String :=
  "You are a fun, engaging, and super knowledgeable assistant, an expert on Gen Z lingo.\nYour main goal is to explain Gen Z internet slang clearly to someone who might not be familiar with it.\nAlways be friendly and approachable.\nWhen explaining a term:\n1. Provide a clear, concise definition.\n2. Give one or two relevant and easy-to-understand example sentences.\n3. Use appropriate emojis to enhance the explanation and keep the vibe light.\nKeep your explanations relatively short and to the point unless the user asks for more detail.\nIf a term is very obscure or has multiple meanings, acknowledge that if relevant.\n"

/-- `INITIAL_ASSISTANT_MESSAGE` from `streamlit_app.py` (line 39). -/
def INITIAL_ASSISTANT_MESSAGE : String :=
  "Yo! What" ++ apos ++ "s good? 🤘 Ask me about any Gen Z lingo, or pick a term from the sidebar to get the lowdown! Let" ++ apos ++ "s get it! 🚀"

/-- `DEFAULT_SELECTBOX_OPTION` from `streamlit_app.py` (line 38). -/
def DEFAULT_SELECTBOX_OPTION : String := "✨ Pick a term... ✨"

/-- The initial chat history installed when `"messages"` is not yet in
`st.session_state` (lines 52-56): the system prompt followed by the
greeting from the assistant. -/
def initialMessages : History :=
  [⟨"system", SYSTEM_PROMPT_CONTENT⟩,
   ⟨"assistant", INITIAL_ASSISTANT_MESSAGE⟩]

/-- A Python exception that the streaming OpenAI call may raise.
`openai.AuthenticationError` is a subclass of `openai.APIError`, which is a
subclass of `Exception`; `otherExc` stands for any exception that is not an
`openai.APIError`.  The `String` payloads are `str(e)`. -/
inductive PyExc where
  | authenticationError (msg : String)
  | apiError (msg : String)
  | otherExc (msg : String)
deriving DecidableEq, Repr

/-- Whether an exception matches `except openai.AuthenticationError`. -/
def PyExc.isAuthenticationError : PyExc → Bool
  | .authenticationError _ => true
  | _ => false

/-- Whether an exception matches `except openai.APIError`
(`AuthenticationError` is a subclass of `APIError`). -/
def PyExc.isAPIError : PyExc → Bool
  | .authenticationError _ => true
  | .apiError _ => true
  | _ => false

/-- `str(e)` for an exception. -/
def PyExc.str : PyExc → String
  | .authenticationError m => m
  | .apiError m => m
  | .otherExc m => m

/-- The outcome of the streamed
`openai_client.chat.completions.create(...)` call together with the chunk
loop: either the full concatenated response text, or a raised exception. -/
inductive LLMOutcome where
  | success (content : String)
  | raised (e : PyExc)
deriving DecidableEq, Repr

/-- Something drawn on the page: a chat-bubble markdown
(`st.chat_message(role)` + `st.markdown`) or an error box
(`message_placeholder.error`). -/
inductive Render where
  | chatMarkdown (role : String) (content : String)
  | errorBox (content : String)
deriving DecidableEq, Repr

/-- The `except` chain of `get_and_display_llm_response` (lines 100-108):
given the raised exception, the first matching handler sets
`full_response_content` and renders it as an error box.  Returns `none`
when no handler matches (the exception would propagate); the final
`except Exception` clause matches every exception, so this never happens. -/
def dispatchExcept (e : PyExc) : Option (String × List Render) :=
  if e.isAuthenticationError then
    let m := "Error: Authentication failed. Please check your OpenAI API key."
    some (m, [Render.errorBox m])
  else if e.isAPIError then
    let m := "OpenAI API Error: " ++ e.str
    some (m, [Render.errorBox m])
  else
    let m := "Oops! An unexpected error occurred: " ++ e.str
    some (m, [Render.errorBox m])

/-- Lines 73-78 of `get_and_display_llm_response`: append the user prompt
to the history (and render it) unless it is already the last message. -/
def gadAppendUser (user_prompt_content : String) (messages : History) :
    History × List Render :=
  if messages.isEmpty ∨ (messages.getLast?.map Message.role) ≠ some "user" ∨
     (messages.getLast?.map Message.content) ≠ some user_prompt_content then
    (messages ++ [⟨"user", user_prompt_content⟩],
     [Render.chatMarkdown "user" user_prompt_content])
  else (messages, [])

/-- Lines 83-108 of `get_and_display_llm_response`: the try/except around
the streaming call, producing `full_response_content` and the renders of
the assistant bubble; `.error` exactly when a raised exception is not
caught by any `except` clause (never, thanks to the catch-all). -/
def gadTryBlock (outcome : LLMOutcome) : Except PyExc (String × List Render) :=
  match outcome with
  | .success c => .ok (c, [Render.chatMarkdown "assistant" c])
  | .raised e =>
    match dispatchExcept e with
    | some r => .ok r
    | none => .error e

/-- Lines 110-111 of `get_and_display_llm_response`: append the response
as an assistant message unless it is empty or already the last message's
content. -/
def gadAppendAssistant (full_response_content : String) (messages1 : History) :
    History :=
  if full_response_content ≠ "" ∧
     (messages1.isEmpty ∨
      (messages1.getLast?.map Message.content) ≠ some full_response_content) then
    messages1 ++ [⟨"assistant", full_response_content⟩]
  else messages1

/-- `get_and_display_llm_response(user_prompt_content)` (lines 70-111),
acting on the chat history.  `outcome` is the behaviour of the external
LLM call.  Returns the new history and everything rendered. -/
def get_and_display_llm_response (user_prompt_content : String)
    (outcome : LLMOutcome) (messages : History) :
    Except PyExc (History × List Render) :=
  let step1 := gadAppendUser user_prompt_content messages
  match gadTryBlock outcome with
  | .error e => .error e
  | .ok fr => .ok (gadAppendAssistant fr.1 step1.1, step1.2 ++ fr.2)

/-- The quiz error taxonomy (spec §7). -/
inductive QuizError where
  | insufficientTerms
  | noActiveRound
deriving DecidableEq, Repr

/-- Modelled from the spec: the TermStore data model (§3) — a mapping from
term to definition with unique keys.  No implementation of this component
exists under `src/`. -/
structure TermStore where
  entries : List (String × String)
  nodupKeys : (entries.map Prod.fst).Nodup

/-- The keys of a term store. -/
def TermStore.keys (store : TermStore) : List String :=
  store.entries.map Prod.fst

/-- The number of entries, `|store|`. -/
def TermStore.size (store : TermStore) : Nat :=
  store.entries.length

/-- `store[t]` with a default, as used by `currentPrompt`. -/
def TermStore.defOf (store : TermStore) (t : String) : String :=
  (store.entries.lookup t).getD ""

/-- Modelled from the spec: a QuizRound (§3) — the correct term, the
distractor sequence, and the shuffled option list. -/
structure QuizRound where
  correctTerm : String
  distractorTerms : List String
  allOptions : List String
deriving DecidableEq, Repr

/-- Modelled from the spec: a QuizSession (§3) — score, attempts, and the
optional current round. -/
structure QuizSession where
  score : Nat
  attempts : Nat
  currentRound : Option QuizRound
deriving DecidableEq, Repr

/-- The fresh session created at session start (§3). -/
def QuizSession.initial : QuizSession := ⟨0, 0, none⟩

/-- Modelled from the spec: draw `k` elements from `pool` without
replacement, each drawn uniformly from what remains.  The injected random
source `σ` is a stream of naturals; draw `i` uses `σ i` reduced modulo the
current pool size (§9: randomness is an explicit parameter). -/
def sampleWithout : Nat → List String → (Nat → Nat) → Nat → List String
  | 0, _, _, _ => []
  | k + 1, pool, σ, i =>
    if h : 0 < pool.length then
      let j : Fin pool.length := ⟨σ i % pool.length, Nat.mod_lt _ h⟩
      pool.get j :: sampleWithout k (pool.eraseIdx j.val) σ (i + 1)
    else []

/-- Modelled from the spec: a uniform random permutation of `l` (§4.1),
realised by drawing all `l.length` elements without replacement. -/
def shuffle (l : List String) (σ : Nat → Nat) (i : Nat) : List String :=
  sampleWithout l.length l σ i

/-- Modelled from the spec: `startRound(store, session)` (§4.1).  Fails
with `InsufficientTermsError` when `|store| < 2`; otherwise picks the
correct term uniformly, picks `min(3, |store|-1)` distinct distractors
from the remaining keys, shuffles the combined options, and stores the
round as `session.currentRound` without touching score/attempts. -/
def startRound (store : TermStore) (σ : Nat → Nat) (session : QuizSession) :
    Except QuizError (QuizRound × QuizSession) :=
  let keys := store.keys
  if h : keys.length < 2 then .error .insufficientTerms
  else
    let correctTerm := keys.get ⟨σ 0 % keys.length, Nat.mod_lt _ (by omega)⟩
    let remaining := keys.erase correctTerm
    let k := min 3 (keys.length - 1)
    let distractorTerms := sampleWithout k remaining σ 1
    let allOptions := shuffle (correctTerm :: distractorTerms) σ (1 + k)
    let round : QuizRound := ⟨correctTerm, distractorTerms, allOptions⟩
    .ok (round, { session with currentRound := some round })

/-- The verdict returned by `submitAnswer` (§4.1). -/
structure SubmitResult where
  correct : Bool
  correctTerm : String
deriving DecidableEq, Repr

/-- Modelled from the spec: `submitAnswer(session, chosenTerm)` (§4.1).
Fails with `NoActiveRoundError` when no round is active; otherwise bumps
`attempts`, bumps `score` exactly when the chosen term is the round's
correct term, clears `currentRound`, and returns the verdict together
with the correct term. -/
def submitAnswer (session : QuizSession) (chosenTerm : String) :
    Except QuizError (SubmitResult × QuizSession) :=
  match session.currentRound with
  | none => .error .noActiveRound
  | some round =>
    if chosenTerm = round.correctTerm then
      .ok (⟨true, round.correctTerm⟩,
           { session with
             score := session.score + 1
             attempts := session.attempts + 1
             currentRound := none })
    else
      .ok (⟨false, round.correctTerm⟩,
           { session with
             attempts := session.attempts + 1
             currentRound := none })

/-- Modelled from the spec: `currentPrompt(session)` (§4.1) — a pure read
returning the definition of the round's correct term and the stored
(already-shuffled) option order; fails with `NoActiveRoundError` when no
round is active. -/
def currentPrompt (store : TermStore) (session : QuizSession) :
    Except QuizError (String × List String) :=
  match session.currentRound with
  | none => .error .noActiveRound
  | some round => .ok (store.defOf round.correctTerm, round.allOptions)

/-- The whole `st.session_state` that the claims touch: the chat history,
the sidebar selectbox value (absent until the widget registers), and —
modelled from the spec, since the quiz component has no implementation
under `src/` — the quiz session and the term store. -/
structure AppState where
  messages : History
  lingoSelector : Option String
  quiz : QuizSession
  store : TermStore

/-- `clear_chat_history()` (lines 59-67): reset the history to the initial
two messages and, when the selectbox key exists, reset it to the default
option. -/
def clear_chat_history (s : AppState) : AppState :=
  { s with
    messages := initialMessages
    lingoSelector :=
      if s.lingoSelector.isSome then some DEFAULT_SELECTBOX_OPTION
      else s.lingoSelector }

/-- `get_and_display_llm_response` lifted to the whole session state: the
function reads and writes only `st.session_state.messages`. -/
def app_get_and_display (user_prompt_content : String) (outcome : LLMOutcome)
    (s : AppState) : Except PyExc (AppState × List Render) :=
  (get_and_display_llm_response user_prompt_content outcome s.messages).map
    (fun p => ({ s with messages := p.1 }, p.2))

/-- The backwards scan of lines 119-123: the content of the most recent
message with role `"user"`, or `""` when there is none. -/
def lastUserMessageContent (ms : History) : String :=
  match ms.reverse.find? (fun m => m.role = "user") with
  | some m => m.content
  | none => ""

/-- The f-string prompt built on line 125. -/
def lingoPrompt (selected_term : String) : String :=
  "Tell me about the Gen Z lingo: " ++ apos ++ selected_term ++ apos ++
    ". Explain its meaning and give an example."

/-- `handle_lingo_selection_change()` (lines 113-127): read the selectbox
value (default when the key is absent); when it is not the sentinel and
its generated prompt differs from the most recent user message, run
`get_and_display_llm_response`; otherwise do nothing. -/
def handle_lingo_selection_change (outcome : LLMOutcome) (s : AppState) :
    Except PyExc (AppState × List Render) :=
  let selected_term := s.lingoSelector.getD DEFAULT_SELECTBOX_OPTION
  if selected_term ≠ DEFAULT_SELECTBOX_OPTION then
    let prompt_for_llm := lingoPrompt selected_term
    if prompt_for_llm ≠ lastUserMessageContent s.messages then
      app_get_and_display prompt_for_llm outcome s
    else .ok (s, [])
  else .ok (s, [])

/-- The display loop (lines 158-161): every message whose role is not
`"system"` is rendered as a chat bubble; the system message never is. -/
def displayHistory (ms : History) : List Render :=
  (ms.filter (fun m => m.role ≠ "system")).map
    (fun m => Render.chatMarkdown m.role m.content)

/-- The invariant of claim C9: the history is non-empty and starts with
the fixed system-prompt message. -/
def historyInvariant (ms : History) : Prop :=
  ms ≠ [] ∧ ms.head? = some ⟨"system", SYSTEM_PROMPT_CONTENT⟩

/-- Escape one character of a term or definition for the persisted layout:
backslash, newline and tab become two-character escape sequences, every
other character stands for itself. -/
def escChar (c : Char) : List Char :=
  if c = Char.ofNat 92 then [Char.ofNat 92, Char.ofNat 92]
  else if c = Char.ofNat 10 then [Char.ofNat 92, 'n']
  else if c = Char.ofNat 9 then [Char.ofNat 92, 't']
  else [c]

/-- Escape a whole string (as a character list). -/
def esc (s : List Char) : List Char :=
  (s.map escChar).flatten

/-- Decode one escape sequence introducer: the character after a
backslash. -/
def unescStep (c : Char) : Char :=
  if c = 'n' then Char.ofNat 10
  else if c = 't' then Char.ofNat 9
  else c

/-- Unescape a character list: a backslash followed by any character
decodes via `unescStep`; everything else stands for itself. -/
def unesc : List Char → List Char
  | [] => []
  | [c] => [c]
  | c :: c2 :: rest =>
    if c = Char.ofNat 92 then unescStep c2 :: unesc rest
    else c :: unesc (c2 :: rest)

/-- The records of the persisted layout: one per entry — escaped key, a
tab, escaped definition, a newline. -/
def saveRecords (m : List (String × String)) : List Char :=
  (m.map (fun p =>
      esc p.1.data ++ Char.ofNat 9 :: (esc p.2.data ++ [Char.ofNat 10]))).flatten

/-- Modelled from the spec: `save` of the TermStore boundary contract
(§6).  The persisted layout is a human-readable mapping from term to
definition, one record per entry. -/
def saveStore (m : List (String × String)) : String :=
  String.mk (saveRecords m)

/-- Scan up to the first newline; `none` when there is no newline. -/
def takeLine : List Char → Option (List Char × List Char)
  | [] => none
  | c :: rest =>
    if c = Char.ofNat 10 then some ([], rest)
    else (takeLine rest).map (fun p => (c :: p.1, p.2))

/-- Split a record at its first tab; `none` when there is no tab. -/
def splitTab : List Char → Option (List Char × List Char)
  | [] => none
  | c :: rest =>
    if c = Char.ofNat 9 then some ([], rest)
    else (splitTab rest).map (fun p => (c :: p.1, p.2))

/-- Parse the persisted records, with `fuel` bounding the number of
records (each record consumes at least its trailing newline, so
`cs.length` fuel always suffices). -/
def loadStoreAux (fuel : Nat) (cs : List Char) :
    Option (List (String × String)) :=
  match cs with
  | [] => some []
  | c :: cs' =>
    match fuel with
    | 0 => none
    | fuel' + 1 =>
      match takeLine (c :: cs') with
      | none => none
      | some lr =>
        match splitTab lr.1 with
        | none => none
        | some kv =>
          match loadStoreAux fuel' lr.2 with
          | none => none
          | some m => some ((String.mk (unesc kv.1), String.mk (unesc kv.2)) :: m)

/-- Modelled from the spec: `load` of the TermStore boundary contract
(§6), parsing the persisted layout back into the mapping. -/
def loadStore (s : String) : Option (List (String × String)) :=
  loadStoreAux s.data.length s.data

/-- A concrete two-entry term store, used to exercise the theorems. -/
def storeBetCap : TermStore :=
  ⟨[("bet", "agreement"), ("cap", "lie")], by decide⟩

/-- A concrete one-entry term store, used to exercise the theorems. -/
def storeBetOnly : TermStore :=
  ⟨[("bet", "agreement")], by decide⟩

/-- A constant random stream, used to exercise the theorems. -/
def sigmaZero : Nat → Nat := fun _ => 0

/-- A concrete session state whose selectbox holds the default sentinel,
used to exercise the theorems. -/
def appStateDefault : AppState :=
  ⟨initialMessages, some DEFAULT_SELECTBOX_OPTION, QuizSession.initial,
   storeBetCap⟩

/-- A concrete round over `storeBetCap`, used to exercise the theorems. -/
def roundBetCap : QuizRound := ⟨"bet", ["cap"], ["cap", "bet"]⟩

/-- A concrete session holding `roundBetCap`, used to exercise the
theorems. -/
def sessionWithRound : QuizSession := ⟨0, 0, some roundBetCap⟩

/-! ## Helper lemmas -/

theorem perm_get_cons_eraseIdx (l : List String) (i : Nat) (h : i < l.length) :
    l.Perm (l.get ⟨i, h⟩ :: l.eraseIdx i) :=
  (List.perm_cons_erase (l.get_mem i h)).trans
    (List.Perm.cons _ (List.erase_getElem h))

theorem sampleWithout_length (k : Nat) (pool : List String) (σ : Nat → Nat)
    (i : Nat) : (sampleWithout k pool σ i).length = min k pool.length := by
  induction k generalizing pool i with
  | zero => simp [sampleWithout]
  | succ k ih =>
    by_cases h : 0 < pool.length
    · rw [sampleWithout, dif_pos h]
      have hlen := List.length_eraseIdx_add_one
        (show σ i % pool.length < pool.length from Nat.mod_lt _ h)
      simp only [List.length_cons, ih]
      omega
    · rw [sampleWithout, dif_neg h]
      simp at h
      simp [h]

theorem sampleWithout_subset (k : Nat) (pool : List String) (σ : Nat → Nat)
    (i : Nat) : ∀ x ∈ sampleWithout k pool σ i, x ∈ pool := by
  induction k generalizing pool i with
  | zero => simp [sampleWithout]
  | succ k ih =>
    intro x hx
    by_cases h : 0 < pool.length
    · rw [sampleWithout, dif_pos h] at hx
      rcases List.mem_cons.mp hx with hx | hx
      · exact hx ▸ pool.get_mem _ _
      · have hmem := ih (pool.eraseIdx (σ i % pool.length)) (i + 1) x hx
        exact ((perm_get_cons_eraseIdx pool _ (Nat.mod_lt _ h)).symm.mem_iff).mp
          (List.mem_cons_of_mem _ hmem)
    · rw [sampleWithout, dif_neg h] at hx
      simp at hx

theorem sampleWithout_nodup (k : Nat) (pool : List String) (σ : Nat → Nat)
    (i : Nat) (hpool : pool.Nodup) : (sampleWithout k pool σ i).Nodup := by
  induction k generalizing pool i with
  | zero => simp [sampleWithout]
  | succ k ih =>
    by_cases h : 0 < pool.length
    · rw [sampleWithout, dif_pos h]
      have hperm := perm_get_cons_eraseIdx pool (σ i % pool.length) (Nat.mod_lt _ h)
      have hcons := hperm.nodup hpool
      rw [List.nodup_cons] at hcons
      refine List.nodup_cons.mpr ⟨fun hmem => hcons.1 ?_, ih _ _ hcons.2⟩
      exact sampleWithout_subset k _ σ (i + 1) _ hmem
    · rw [sampleWithout, dif_neg h]
      exact List.nodup_nil

theorem sampleWithout_full_perm (n : Nat) :
    ∀ (l : List String) (σ : Nat → Nat) (i : Nat), l.length = n →
      (sampleWithout n l σ i).Perm l := by
  induction n with
  | zero =>
    intro l σ i hl
    rw [List.length_eq_zero] at hl
    simp [sampleWithout, hl]
  | succ n ih =>
    intro l σ i hl
    have h : 0 < l.length := by omega
    rw [sampleWithout, dif_pos h]
    have hlen := List.length_eraseIdx_add_one
      (show σ i % l.length < l.length from Nat.mod_lt _ h)
    have htail := ih (l.eraseIdx (σ i % l.length)) σ (i + 1) (by omega)
    exact (htail.cons _).trans (perm_get_cons_eraseIdx l _ (Nat.mod_lt _ h)).symm

theorem shuffle_perm (l : List String) (σ : Nat → Nat) (i : Nat) :
    (shuffle l σ i).Perm l :=
  sampleWithout_full_perm l.length l σ i rfl

theorem dispatchExcept_total (e : PyExc) :
    ∃ m, dispatchExcept e = some (m, [Render.errorBox m]) ∧ m ≠ "" := by
  cases e with
  | authenticationError msg =>
    refine ⟨_, rfl, ?_⟩
    decide
  | apiError msg =>
    refine ⟨_, rfl, ?_⟩
    intro hc
    have := congrArg String.length hc
    simp [String.length_append] at this
    exact absurd this.1 (by decide)
  | otherExc msg =>
    refine ⟨_, rfl, ?_⟩
    intro hc
    have := congrArg String.length hc
    simp [String.length_append] at this
    exact absurd this.1 (by decide)

theorem gadAppendUser_fst (p : String) (ms : History) :
    ∃ t, (gadAppendUser p ms).1 = ms ++ t := by
  unfold gadAppendUser
  split
  · exact ⟨_, rfl⟩
  · exact ⟨[], (List.append_nil ms).symm⟩

theorem gadAppendUser_snd (p : String) (ms : History) :
    ∀ r ∈ (gadAppendUser p ms).2, r = Render.chatMarkdown "user" p := by
  intro r hr
  unfold gadAppendUser at hr
  split at hr
  · simpa using hr
  · simp at hr

theorem gadAppendAssistant_shape (f : String) (ms1 : History) :
    ∃ t, gadAppendAssistant f ms1 = ms1 ++ t := by
  unfold gadAppendAssistant
  split
  · exact ⟨_, rfl⟩
  · exact ⟨[], (List.append_nil ms1).symm⟩

theorem gadTryBlock_raised (e : PyExc) :
    ∃ m, gadTryBlock (.raised e) = .ok (m, [Render.errorBox m]) ∧ m ≠ "" := by
  obtain ⟨m, hd, hm⟩ := dispatchExcept_total e
  exact ⟨m, by simp [gadTryBlock, hd], hm⟩

theorem get_and_display_raised (p : String) (e : PyExc) (ms : History) :
    ∃ hist renders m,
      get_and_display_llm_response p (.raised e) ms = .ok (hist, renders) ∧
      Render.errorBox m ∈ renders ∧ m ≠ "" := by
  obtain ⟨m, htb, hm⟩ := gadTryBlock_raised e
  refine ⟨gadAppendAssistant m (gadAppendUser p ms).1,
    (gadAppendUser p ms).2 ++ [Render.errorBox m], m, ?_, ?_, hm⟩
  · simp only [get_and_display_llm_response, htb]
  · exact List.mem_append_right _ (by simp)

/-- C1: whenever the LLM call raises an authentication error or a
provider/API error, `get_and_display_llm_response` returns normally (no
exception propagates) and its renders include a visible, non-empty error
message. -/
theorem chat_error_rendered_not_crashing (p : String) (ms : History)
    (e : PyExc)
    (_h : e.isAuthenticationError = true ∨ e.isAPIError = true) :
    ∃ hist renders,
      get_and_display_llm_response p (.raised e) ms = .ok (hist, renders) ∧
      ∃ m, Render.errorBox m ∈ renders ∧ m ≠ "" := by
  obtain ⟨hist, renders, m, heq, hmem, hm⟩ := get_and_display_raised p e ms
  exact ⟨hist, renders, heq, m, hmem, hm⟩

theorem chat_error_rendered_not_crashing_witness :
    ((PyExc.authenticationError "bad key").isAuthenticationError = true ∨
      (PyExc.authenticationError "bad key").isAPIError = true) ∧
    (∃ hist renders,
      get_and_display_llm_response "hi"
        (.raised (.authenticationError "bad key")) [] = .ok (hist, renders) ∧
      ∃ m, Render.errorBox m ∈ renders ∧ m ≠ "") :=
  ⟨Or.inl rfl,
   chat_error_rendered_not_crashing "hi" [] (.authenticationError "bad key")
     (Or.inl rfl)⟩

/-- C2: a failed AI call leaves every part of the session state other
than the chat history untouched: the quiz session (score, attempts,
round), the term store, and the selectbox value are unchanged. -/
theorem failed_llm_call_preserves_quiz_state (p : String) (e : PyExc)
    (s : AppState) :
    ∃ s' renders,
      app_get_and_display p (.raised e) s = .ok (s', renders) ∧
      s'.quiz = s.quiz ∧ s'.store = s.store ∧
      s'.lingoSelector = s.lingoSelector := by
  obtain ⟨hist, renders, m, heq, hmem, hm⟩ := get_and_display_raised p e s.messages
  exact ⟨{ s with messages := hist }, renders,
    by simp [app_get_and_display, heq, Except.map], rfl, rfl, rfl⟩

theorem historyInvariant_append (ms t : History) (h : historyInvariant ms) :
    historyInvariant (ms ++ t) := by
  obtain ⟨hne, hhead⟩ := h
  cases ms with
  | nil => exact absurd rfl hne
  | cons a rest => exact ⟨by simp, by simpa using hhead⟩

theorem get_and_display_ok_shape (p : String) (outcome : LLMOutcome)
    (ms : History) (hist : History) (renders : List Render)
    (h : get_and_display_llm_response p outcome ms = .ok (hist, renders)) :
    (∃ t, hist = ms ++ t) ∧
    ∀ role content, Render.chatMarkdown role content ∈ renders →
      role = "user" ∨ role = "assistant" := by
  have main : ∀ f rs2,
      gadTryBlock outcome = .ok (f, rs2) →
      (∀ role content, Render.chatMarkdown role content ∈ rs2 →
        role = "assistant") →
      (∃ t, hist = ms ++ t) ∧
      ∀ role content, Render.chatMarkdown role content ∈ renders →
        role = "user" ∨ role = "assistant" := by
    intro f rs2 htb hrs2
    simp only [get_and_display_llm_response, htb, Except.ok.injEq, Prod.mk.injEq] at h
    obtain ⟨hh, hr⟩ := h
    constructor
    · obtain ⟨t1, h1⟩ := gadAppendUser_fst p ms
      obtain ⟨t2, h2⟩ := gadAppendAssistant_shape f (gadAppendUser p ms).1
      exact ⟨t1 ++ t2, by rw [← hh, h2, h1, List.append_assoc]⟩
    · intro role content hrmem
      rw [← hr] at hrmem
      rcases List.mem_append.mp hrmem with hmem | hmem
      · have := gadAppendUser_snd p ms _ hmem
        exact Or.inl (by injection this)
      · exact Or.inr (hrs2 role content hmem)
  cases outcome with
  | success c =>
    refine main c [Render.chatMarkdown "assistant" c] rfl ?_
    intro role content hmem
    simp at hmem
    exact hmem.1
  | raised e =>
    obtain ⟨m, htb, hm⟩ := gadTryBlock_raised e
    refine main m [Render.errorBox m] htb ?_
    intro role content hmem
    simp at hmem

/-- C9: every operation touching the chat history — initialization,
clearing the history, and a full `get_and_display_llm_response` step
(which appends the user prompt and the assistant response) — preserves
the invariant that the list is non-empty and starts with the fixed
system-prompt message, and the system message is never rendered: neither
the display loop nor `get_and_display_llm_response` ever renders a chat
bubble with role `"system"`. -/
theorem system_prompt_invariant :
    historyInvariant initialMessages ∧
    (∀ s : AppState, historyInvariant (clear_chat_history s).messages) ∧
    (∀ p outcome ms hist renders,
      get_and_display_llm_response p outcome ms = .ok (hist, renders) →
        (historyInvariant ms → historyInvariant hist) ∧
        (∀ role content,
          Render.chatMarkdown role content ∈ renders → role ≠ "system")) ∧
    (∀ ms role content,
      Render.chatMarkdown role content ∈ displayHistory ms →
        role ≠ "system") := by
  refine ⟨⟨by simp [initialMessages], rfl⟩,
    fun s => ⟨by simp [clear_chat_history, initialMessages], rfl⟩, ?_, ?_⟩
  · intro p outcome ms hist renders h
    obtain ⟨⟨t, ht⟩, hroles⟩ := get_and_display_ok_shape p outcome ms hist renders h
    constructor
    · intro hinv
      rw [ht]
      exact historyInvariant_append ms t hinv
    · intro role content hr
      rcases hroles role content hr with h' | h' <;> simp [h']
  · intro ms role content h
    simp only [displayHistory, List.mem_map, List.mem_filter] at h
    obtain ⟨msg, ⟨_, hrole⟩, heq⟩ := h
    have : role = msg.role := by injection heq.symm
    rw [this]
    simpa using hrole

theorem system_prompt_invariant_witness :
    historyInvariant
      ((initialMessages ++ [Message.mk "user" "hi"]) ++
        [Message.mk "assistant" "yo"]) :=
  (system_prompt_invariant.2.2.1 "hi" (.success "yo") initialMessages
    ((initialMessages ++ [Message.mk "user" "hi"]) ++
      [Message.mk "assistant" "yo"])
    [Render.chatMarkdown "user" "hi", Render.chatMarkdown "assistant" "yo"]
    (by rfl)).1 ⟨by simp [initialMessages], rfl⟩

/-- C10: when the sidebar selector holds the default sentinel (or is
absent), or when the selected term's generated prompt equals the most
recent user message, `handle_lingo_selection_change` returns the state
unchanged, renders nothing, and is independent of the LLM outcome (no
request is issued). -/
theorem lingo_selection_noop (outcome : LLMOutcome) (s : AppState)
    (h : s.lingoSelector.getD DEFAULT_SELECTBOX_OPTION =
           DEFAULT_SELECTBOX_OPTION ∨
         lingoPrompt (s.lingoSelector.getD DEFAULT_SELECTBOX_OPTION) =
           lastUserMessageContent s.messages) :
    handle_lingo_selection_change outcome s = .ok (s, []) := by
  by_cases hd : s.lingoSelector.getD DEFAULT_SELECTBOX_OPTION =
      DEFAULT_SELECTBOX_OPTION
  · simp [handle_lingo_selection_change, hd]
  · rcases h with h | h
    · exact absurd h hd
    · simp [handle_lingo_selection_change, hd, h]

/-- C3: `startRound` fails with `InsufficientTermsError` exactly on
stores with fewer than 2 entries: below 2 it returns that error, at 2 or
more it raises no error at all. -/
theorem startRound_insufficient_terms (store : TermStore) (σ : Nat → Nat)
    (session : QuizSession) :
    (store.size < 2 →
      startRound store σ session = .error .insufficientTerms) ∧
    (2 ≤ store.size →
      ∀ e, startRound store σ session ≠ .error e) := by
  have hkeys : store.keys.length = store.size := by
    simp [TermStore.keys, TermStore.size]
  constructor
  · intro h
    simp only [startRound]
    rw [dif_pos (by omega)]
  · intro h e
    simp only [startRound]
    rw [dif_neg (by omega)]
    exact fun hc => Except.noConfusion hc

theorem startRound_insufficient_terms_witness :
    (storeBetOnly.size < 2 ∧
      startRound storeBetOnly sigmaZero QuizSession.initial =
        .error .insufficientTerms) ∧
    (2 ≤ storeBetCap.size ∧
      startRound storeBetCap sigmaZero QuizSession.initial ≠
        .error .insufficientTerms) :=
  ⟨⟨by decide,
    (startRound_insufficient_terms storeBetOnly sigmaZero
      QuizSession.initial).1 (by decide)⟩,
   ⟨by decide,
    (startRound_insufficient_terms storeBetCap sigmaZero
      QuizSession.initial).2 (by decide) .insufficientTerms⟩⟩

/-- C5: on a store with at least 2 entries, `startRound` succeeds and
produces a well-formed round: the correct term is a key of the store,
every distractor is a key distinct from the correct term, the
distractors are pairwise distinct, and the number of options is
`min 4 |store|`. -/
theorem startRound_well_formed (store : TermStore) (σ : Nat → Nat)
    (session : QuizSession) (h : 2 ≤ store.size) :
    ∃ round s', startRound store σ session = .ok (round, s') ∧
      round.correctTerm ∈ store.keys ∧
      (∀ d ∈ round.distractorTerms,
        d ∈ store.keys ∧ d ≠ round.correctTerm) ∧
      round.distractorTerms.Nodup ∧
      round.allOptions.length = min 4 store.size := by
  have hkeys : store.keys.length = store.size := by
    simp [TermStore.keys, TermStore.size]
  have hnd : store.keys.Nodup := store.nodupKeys
  have hlt : ¬store.keys.length < 2 := by omega
  simp only [startRound]
  rw [dif_neg hlt]
  refine ⟨_, _, rfl, ?_, ?_, ?_, ?_⟩
  · exact List.get_mem _ _ _
  · intro d hd
    have hsub := sampleWithout_subset _ _ σ 1 d hd
    rw [List.Nodup.mem_erase_iff hnd] at hsub
    exact ⟨hsub.2, hsub.1⟩
  · exact sampleWithout_nodup _ _ σ 1 (hnd.erase _)
  · have hct : store.keys.get
        ⟨σ 0 % store.keys.length, Nat.mod_lt _ (by omega)⟩ ∈ store.keys :=
      List.get_mem _ _ _
    have herase := List.length_erase_of_mem hct
    simp only [shuffle, sampleWithout_length, List.length_cons, herase]
    omega

theorem startRound_well_formed_witness :
    2 ≤ storeBetCap.size ∧
    (∃ round s',
      startRound storeBetCap sigmaZero QuizSession.initial =
        .ok (round, s') ∧
      round.correctTerm ∈ storeBetCap.keys ∧
      (∀ d ∈ round.distractorTerms,
        d ∈ storeBetCap.keys ∧ d ≠ round.correctTerm) ∧
      round.distractorTerms.Nodup ∧
      round.allOptions.length = min 4 storeBetCap.size) :=
  ⟨by decide,
   startRound_well_formed storeBetCap sigmaZero QuizSession.initial
     (by decide)⟩

/-- C6: with an active round, submitting the round's correct term
returns `correct = true` and bumps score and attempts by exactly 1;
submitting any other term among the options returns `correct = false`,
bumps attempts by exactly 1, and leaves the score unchanged. -/
theorem submitAnswer_scoring (session : QuizSession) (round : QuizRound)
    (h : session.currentRound = some round) (chosen : String) :
    (chosen = round.correctTerm →
      submitAnswer session chosen =
        .ok (⟨true, round.correctTerm⟩,
             ⟨session.score + 1, session.attempts + 1, none⟩)) ∧
    (chosen ∈ round.allOptions → chosen ≠ round.correctTerm →
      submitAnswer session chosen =
        .ok (⟨false, round.correctTerm⟩,
             ⟨session.score, session.attempts + 1, none⟩)) := by
  constructor
  · intro hc
    simp [submitAnswer, h, hc]
  · intro hmem hc
    simp [submitAnswer, h, hc]

theorem submitAnswer_scoring_witness :
    sessionWithRound.currentRound = some roundBetCap ∧
    submitAnswer sessionWithRound "bet" =
      .ok (⟨true, "bet"⟩, ⟨1, 1, none⟩) ∧
    ("cap" ∈ roundBetCap.allOptions ∧
      submitAnswer sessionWithRound "cap" =
        .ok (⟨false, "bet"⟩, ⟨0, 1, none⟩)) :=
  ⟨rfl,
   (submitAnswer_scoring sessionWithRound roundBetCap rfl "bet").1 rfl,
   ⟨by decide,
    (submitAnswer_scoring sessionWithRound roundBetCap rfl "cap").2
      (by decide) (by decide)⟩⟩

/-- C4: a successful `submitAnswer` clears `currentRound` to absent, so a
second `submitAnswer` without an intervening `startRound` fails with
`NoActiveRoundError` — scoring is exactly-once per round. -/
theorem submitAnswer_exactly_once (session s' : QuizSession)
    (r : SubmitResult) (t t' : String)
    (h : submitAnswer session t = .ok (r, s')) :
    s'.currentRound = none ∧
    submitAnswer s' t' = .error .noActiveRound := by
  have hnone : s'.currentRound = none := by
    cases hc : session.currentRound with
    | none => simp [submitAnswer, hc] at h
    | some round =>
      simp only [submitAnswer, hc] at h
      split at h <;>
        (simp only [Except.ok.injEq, Prod.mk.injEq] at h; rw [← h.2])
  refine ⟨hnone, ?_⟩
  simp [submitAnswer, hnone]

theorem submitAnswer_exactly_once_witness :
    (⟨1, 1, none⟩ : QuizSession).currentRound = none ∧
    submitAnswer (⟨1, 1, none⟩ : QuizSession) "bet" =
      .error .noActiveRound :=
  submitAnswer_exactly_once sessionWithRound ⟨1, 1, none⟩ ⟨true, "bet"⟩
    "bet" "bet" rfl

/-- C8: `currentPrompt` is a pure read — with no active round it fails
with `NoActiveRoundError`, and with an active round its result is fully
determined by the stored round: the definition of the correct term and
`allOptions` in the stored (already-shuffled) order, so repeated calls
with no mutation in between return the identical option order. -/
theorem currentPrompt_pure_read (store : TermStore) (session : QuizSession) :
    (session.currentRound = none →
      currentPrompt store session = .error .noActiveRound) ∧
    (∀ round, session.currentRound = some round →
      currentPrompt store session =
        .ok (store.defOf round.correctTerm, round.allOptions)) := by
  constructor
  · intro h
    simp [currentPrompt, h]
  · intro round h
    simp [currentPrompt, h]

theorem currentPrompt_pure_read_witness :
    sessionWithRound.currentRound = some roundBetCap ∧
    currentPrompt storeBetCap sessionWithRound =
      .ok (storeBetCap.defOf "bet", ["cap", "bet"]) ∧
    currentPrompt storeBetCap (⟨0, 0, none⟩ : QuizSession) =
      .error .noActiveRound :=
  ⟨rfl,
   (currentPrompt_pure_read storeBetCap sessionWithRound).2 roundBetCap rfl,
   (currentPrompt_pure_read storeBetCap ⟨0, 0, none⟩).1 rfl⟩

theorem escChar_ne_nil (c : Char) : escChar c ≠ [] := by
  unfold escChar
  split_ifs <;> simp

theorem escChar_no_ctrl (c x : Char) (h : x ∈ escChar c) :
    x ≠ Char.ofNat 9 ∧ x ≠ Char.ofNat 10 := by
  unfold escChar at h
  split_ifs at h with h1 h2 h3
  · simp at h
    subst h
    exact ⟨by decide, by decide⟩
  · simp at h
    rcases h with h | h <;> subst h <;> exact ⟨by decide, by decide⟩
  · simp at h
    rcases h with h | h <;> subst h <;> exact ⟨by decide, by decide⟩
  · simp at h
    subst h
    exact ⟨h3, h2⟩

theorem tab_notin_esc (s : List Char) : Char.ofNat 9 ∉ esc s := by
  intro hmem
  simp only [esc, List.mem_flatten, List.mem_map] at hmem
  obtain ⟨l, ⟨c, _, hcl⟩, hx⟩ := hmem
  exact (escChar_no_ctrl c _ (hcl ▸ hx)).1 rfl

theorem nl_notin_esc (s : List Char) : Char.ofNat 10 ∉ esc s := by
  intro hmem
  simp only [esc, List.mem_flatten, List.mem_map] at hmem
  obtain ⟨l, ⟨c, _, hcl⟩, hx⟩ := hmem
  exact (escChar_no_ctrl c _ (hcl ▸ hx)).2 rfl

theorem esc_eq_nil (s : List Char) (h : esc s = []) : s = [] := by
  cases s with
  | nil => rfl
  | cons c cs =>
    exfalso
    have hh : escChar c ++ (cs.map escChar).flatten = [] := by
      simpa [esc] using h
    exact escChar_ne_nil c (List.append_eq_nil.mp hh).1

theorem takeLine_append (line rest : List Char)
    (h : Char.ofNat 10 ∉ line) :
    takeLine (line ++ Char.ofNat 10 :: rest) = some (line, rest) := by
  induction line with
  | nil => simp [takeLine]
  | cons c cs ih =>
    have hc : ¬c = Char.ofNat 10 := by
      intro hcc
      exact h (by simp [hcc])
    have h' : Char.ofNat 10 ∉ cs := fun hm => h (List.mem_cons_of_mem _ hm)
    simp [takeLine, hc, ih h']

theorem splitTab_append (k v : List Char) (h : Char.ofNat 9 ∉ k) :
    splitTab (k ++ Char.ofNat 9 :: v) = some (k, v) := by
  induction k with
  | nil => simp [splitTab]
  | cons c cs ih =>
    have hc : ¬c = Char.ofNat 9 := by
      intro hcc
      exact h (by simp [hcc])
    have h' : Char.ofNat 9 ∉ cs := fun hm => h (List.mem_cons_of_mem _ hm)
    simp [splitTab, hc, ih h']

theorem unesc_esc_append (s t : List Char) :
    unesc (esc s ++ t) = s ++ unesc t := by
  induction s with
  | nil => simp [esc]
  | cons c cs ih =>
    have hesc : esc (c :: cs) = escChar c ++ esc cs := by simp [esc]
    rw [hesc, List.append_assoc]
    unfold escChar
    split_ifs with h1 h2 h3
    · subst h1
      have hstep : unescStep (Char.ofNat 92) = Char.ofNat 92 := by decide
      simp [unesc, hstep, ih]
    · subst h2
      have hstep : unescStep (Char.ofNat 110) = Char.ofNat 10 := by decide
      have hn : (Char.ofNat 110) = 'n' := by decide
      simp [unesc, hn ▸ hstep, ih]
    · subst h3
      have hstep : unescStep (Char.ofNat 116) = Char.ofNat 9 := by decide
      have ht : (Char.ofNat 116) = 't' := by decide
      simp [unesc, ht ▸ hstep, ih]
    · cases hX : esc cs ++ t with
      | nil =>
        obtain ⟨hcs, hts⟩ := List.append_eq_nil.mp hX
        rw [esc_eq_nil cs hcs, hts]
        simp [unesc]
      | cons d X =>
        simp only [List.singleton_append, unesc, if_neg h1]
        rw [← hX, ih]
        simp

theorem unesc_esc (s : List Char) : unesc (esc s) = s := by
  have h := unesc_esc_append s []
  simpa [unesc] using h

theorem loadStoreAux_record (fuel : Nat) (line rest : List Char)
    (hnl : Char.ofNat 10 ∉ line) (k v : List Char)
    (hsplit : splitTab line = some (k, v)) :
    loadStoreAux (fuel + 1) (line ++ Char.ofNat 10 :: rest) =
      match loadStoreAux fuel rest with
      | none => none
      | some m => some ((String.mk (unesc k), String.mk (unesc v)) :: m) := by
  obtain ⟨c, cs', hcr⟩ := List.exists_cons_of_ne_nil
    (show line ++ Char.ofNat 10 :: rest ≠ [] by simp)
  rw [hcr]
  simp only [loadStoreAux]
  rw [← hcr, takeLine_append line rest hnl]
  simp [hsplit]

theorem saveRecords_cons (k v : String) (m : List (String × String)) :
    saveRecords ((k, v) :: m) =
      (esc k.data ++ Char.ofNat 9 :: esc v.data) ++
        Char.ofNat 10 :: saveRecords m := by
  simp [saveRecords, List.append_assoc]

theorem loadStoreAux_saveRecords (m : List (String × String)) :
    ∀ fuel, (saveRecords m).length ≤ fuel →
      loadStoreAux fuel (saveRecords m) = some m := by
  induction m with
  | nil =>
    intro fuel _
    simp [saveRecords, loadStoreAux]
  | cons p m' ih =>
    intro fuel hf
    obtain ⟨k, v⟩ := p
    rw [saveRecords_cons] at hf ⊢
    cases fuel with
    | zero =>
      exfalso
      simp [List.length_append] at hf
    | succ fuel' =>
      have hnl : Char.ofNat 10 ∉ esc k.data ++ Char.ofNat 9 :: esc v.data := by
        intro hmem
        rcases List.mem_append.mp hmem with hm | hm
        · exact nl_notin_esc _ hm
        · rcases List.mem_cons.mp hm with hm | hm
          · exact absurd hm (by decide)
          · exact nl_notin_esc _ hm
      have hsplit : splitTab (esc k.data ++ Char.ofNat 9 :: esc v.data) =
          some (esc k.data, esc v.data) :=
        splitTab_append _ _ (tab_notin_esc _)
      rw [loadStoreAux_record fuel' _ _ hnl _ _ hsplit]
      have hle : (saveRecords m').length ≤ fuel' := by
        simp [List.length_append] at hf
        omega
      rw [ih fuel' hle]
      simp [unesc_esc]

/-- C7: the TermStore persisted layout round-trips — for every
term-to-definition mapping `m`, saving and then loading yields a mapping
equal to `m`. -/
theorem saveStore_loadStore_roundtrip (m : List (String × String)) :
    loadStore (saveStore m) = some m := by
  simp only [loadStore, saveStore]
  exact loadStoreAux_saveRecords m _ le_rfl

theorem lingo_selection_noop_witness :
    (appStateDefault.lingoSelector.getD DEFAULT_SELECTBOX_OPTION =
       DEFAULT_SELECTBOX_OPTION ∨
     lingoPrompt (appStateDefault.lingoSelector.getD DEFAULT_SELECTBOX_OPTION) =
       lastUserMessageContent appStateDefault.messages) ∧
    handle_lingo_selection_change (.success "x") appStateDefault =
      .ok (appStateDefault, []) :=
  ⟨Or.inl rfl,
   lingo_selection_noop (.success "x") appStateDefault (Or.inl rfl)⟩

end GenZLingo
